import Mathlib

/-!
Verification of the homilia-ai ingestion/retrieval specification against the
repository code.

The frontend clients are embedded from the sources directly:
the legacy fetch client (frontend/src/services/api.js), the legacy upload
component (DocumentUpload, src/unnamed/part_000) and the two chat clients
(ChatInterface, src/unnamed/part_001, and ChatPage, src/unnamed/part_002).
Backend pipeline components (Extractor, Chunker, IngestionPipeline index swap,
ContextAssembler) are not present under src/; following the spec they are
modelled from the spec text, and each such definition is marked
"Modelled from the spec" in its doc comment.
-/

namespace Homilia

/-- A JavaScript value as it flows into the legacy api client: the
use_textract argument of uploadDocument receives a Bool (its default), a
String (the bug in DocumentUpload.handleFile) or null. -/
inductive JsValue where
  | bool (b : Bool)
  | str (s : String)
  | null
deriving DecidableEq

/-- JavaScript .toString() as used by api.js on the use_textract argument:
calling it on null throws a TypeError. -/
def jsToString : JsValue → Except String String
  | .bool b => .ok (if b then "true" else "false")
  | .str s => .ok s
  | .null => .error "Cannot read properties of null"

/-- An HTTP request as the legacy client (frontend/src/services/api.js)
builds it: method, path, multipart form fields, and JSON body fields (a JSON
field value may be null, modelled as none). -/
structure ApiRequest where
  method : String
  path : String
  formParams : List (String × String)
  jsonParams : List (String × Option String)
deriving DecidableEq

/-- api.js searchDocuments(query): POST /documents/search with JSON body
consisting of the query only. -/
def searchDocumentsRequest (query : String) : ApiRequest :=
  ⟨"POST", "/documents/search", [], [("query", some query)]⟩

/-- api.js chatWithAgent(message, documentId = null): POST /agent/chat with
JSON body of the message and document_id. -/
def chatWithAgentRequest (message : String) (documentId : Option String) : ApiRequest :=
  ⟨"POST", "/agent/chat", [], [("message", some message), ("document_id", documentId)]⟩

/-- api.js deleteDocument(documentId): DELETE /documents/{id}, no body. -/
def deleteDocumentRequest (documentId : String) : ApiRequest :=
  ⟨"DELETE", "/documents/" ++ documentId, [], []⟩

/-- api.js uploadDocument(file, parishId = 'default', documentType =
'document', useTextract = false): builds the multipart form; an omitted
argument (none) takes the JavaScript default.  use_textract is appended as
useTextract.toString(), which throws when the argument is null. -/
def uploadDocumentRequest (filename : String) (parishId documentType : Option String)
    (useTextract : Option JsValue) : Except String ApiRequest :=
  match jsToString (useTextract.getD (.bool false)) with
  | .error e => .error e
  | .ok ut =>
    .ok ⟨"POST", "/documents/upload",
      [("file", filename), ("parish_id", parishId.getD "default"),
       ("document_type", documentType.getD "document"), ("use_textract", ut)], []⟩

/-- Whether a request carries the tenant (parish) identifier in any of its
parameters. -/
def hasTenantParam (r : ApiRequest) : Bool :=
  r.formParams.any (fun p => p.1 = "parish_id") ||
    r.jsonParams.any (fun p => p.1 = "parish_id")

/-- Claim C1 (counterexample): the claim says every data-access operation
takes the tenant identifier as a mandatory parameter; but the legacy client
request for a concrete search carries no tenant parameter at all, and
neither do a concrete chat request and a concrete delete request. -/
theorem C1_counterexample :
    hasTenantParam (searchDocumentsRequest "homily") = false ∧
    hasTenantParam (chatWithAgentRequest "What was the homily about?" none) = false ∧
    hasTenantParam (deleteDocumentRequest "doc_123") = false := by
  decide

/-- Claim C1 (amended): in the legacy client the search, chat and delete
requests carry no tenant identifier for any input, and the upload request
takes the tenant as an optional parameter defaulted to "default" when
omitted; tenant scoping is therefore not a mandatory parameter at these
data-access boundaries. -/
theorem C1_amended (query message documentId fileId filename : String) :
    hasTenantParam (searchDocumentsRequest query) = false ∧
    hasTenantParam (chatWithAgentRequest message (some documentId)) = false ∧
    hasTenantParam (chatWithAgentRequest message none) = false ∧
    hasTenantParam (deleteDocumentRequest fileId) = false ∧
    uploadDocumentRequest filename none none none =
      .ok ⟨"POST", "/documents/upload",
        [("file", filename), ("parish_id", "default"),
         ("document_type", "document"), ("use_textract", "false")], []⟩ := by
  refine ⟨rfl, rfl, rfl, ?_, rfl⟩
  simp [hasTenantParam, deleteDocumentRequest]

/-- A file as the browser hands it to DocumentUpload.handleFile
(src/unnamed/part_000): MIME type, name and byte size. -/
structure BrowserFile where
  mimeType : String
  name : String
  size : Nat
deriving DecidableEq

/-- The MIME types accepted by DocumentUpload.handleFile. -/
def allowedTypes : List String :=
  ["application/pdf", "application/msword",
   "application/vnd.openxmlformats-officedocument.wordprocessingml.document",
   "text/plain"]

/-- Outcome of DocumentUpload.handleFile as observed by its caller: the
unsupported-type error message, the oversized error message, a caught upload
error, or a successful upload carrying the request that was transmitted. -/
inductive UploadOutcome where
  | unsupportedType
  | oversized
  | uploadFailed (msg : String)
  | uploaded (req : ApiRequest)
deriving DecidableEq

/-- DocumentUpload.handleFile (src/unnamed/part_000): validates the MIME type
against allowedTypes, then the size against the literal 10 * 1024 * 1024,
then calls uploadDocument(file, 'default', 'document', formattedDate) where
formattedDate is the sermon date string if nonempty and null otherwise.
backend is the result of the POST once the request is sent. -/
def handleFile (f : BrowserFile) (sermonDate : String)
    (backend : Except String Unit) : UploadOutcome :=
  if allowedTypes.contains f.mimeType = false then .unsupportedType
  else if 10 * 1024 * 1024 < f.size then .oversized
  else
    match uploadDocumentRequest f.name (some "default") (some "document")
      (some (if sermonDate = "" then .null else .str sermonDate)) with
    | .error e => .uploadFailed ("Upload failed: " ++ e)
    | .ok req =>
      match backend with
      | .error e => .uploadFailed ("Upload failed: " ++ e)
      | .ok _ => .uploaded req

/-- Modelled from the spec: the size gate the spec asks for, with the ceiling
a configurable parameter rather than a constant ("a hard byte-size ceiling is
enforced before extraction begins ... configurable limit, not hard-coded").
Used only to state what the claim asserts, for comparison with handleFile. -/
def specCeilingRejects (ceiling : Nat) (f : BrowserFile) : Bool :=
  ceiling < f.size

/-- Claim C5 (counterexample): with a configured ceiling of 1 byte, a 2-byte
text file exceeds the ceiling, yet handleFile does not reject it: it uploads
the file, because the implementation compares the size against the
hard-coded literal 10 * 1024 * 1024, not against a configurable limit. -/
theorem C5_counterexample :
    specCeilingRejects 1 ⟨"text/plain", "a.txt", 2⟩ = true ∧
    handleFile ⟨"text/plain", "a.txt", 2⟩ "2024-01-01" (.ok ()) =
      .uploaded ⟨"POST", "/documents/upload",
        [("file", "a.txt"), ("parish_id", "default"),
         ("document_type", "document"), ("use_textract", "2024-01-01")], []⟩ := by
  decide

/-- Claim C5 (amended): every upload of an accepted MIME type whose byte size
exceeds the hard-coded 10 MiB constant is rejected with the oversized error,
and the rejection happens before the upload request is sent: the outcome does
not depend on the backend result.  The ceiling is the fixed literal
10 * 1024 * 1024, not a configurable limit. -/
theorem C5_amended (f : BrowserFile) (sermonDate : String)
    (backend : Except String Unit)
    (htype : allowedTypes.contains f.mimeType = true)
    (hsize : 10 * 1024 * 1024 < f.size) :
    handleFile f sermonDate backend = .oversized := by
  have hm : f.mimeType ∈ allowedTypes := by simpa using htype
  simp [handleFile, hm, hsize]

/-- Witness for C5_amended at a concrete 10 MiB + 1 upload. -/
theorem C5_amended_witness :
    handleFile ⟨"text/plain", "big.txt", 10485761⟩ "" (.ok ()) = .oversized :=
  C5_amended ⟨"text/plain", "big.txt", 10485761⟩ "" (.ok ()) (by decide) (by decide)

/-- The extraction error taxonomy of spec section 7, as far as the two
extraction failures go. -/
inductive ExtractError where
  | unsupportedFormat
  | extractionFailed
deriving DecidableEq

/-- A raw uploaded file as the backend Extractor sees it: its declared or
sniffed format, whether its contents are corrupt for that format, and the
text it carries when readable. -/
structure RawFile where
  format : String
  corrupt : Bool
  content : String
deriving DecidableEq

/-- The formats the backend supports (API_DOCUMENTATION.md,
GET /documents/supported-formats). -/
def supportedFormats : List String := [".pdf", ".docx", ".doc", ".txt", ".rtf"]

/-- Modelled from the spec: the backend Extractor is not under src/ (only the
API documentation and the tests README describe it).  Spec section 4.1:
extract(bytes, declaredType) converts a file to plain text; unsupported or
corrupt input fails with UnsupportedFormat or ExtractionFailed respectively,
distinguished so callers can tell the cases apart. -/
def extract (f : RawFile) : Except ExtractError String :=
  if supportedFormats.contains f.format = false then .error .unsupportedFormat
  else if f.corrupt = true then .error .extractionFailed
  else .ok f.content

/-- Claim C6: extraction of an unsupported format fails with
UnsupportedFormat, extraction of a corrupt file of a supported format fails
with ExtractionFailed, and the two errors are distinct, so the caller can
distinguish the failures. -/
theorem C6_extract_errors (f : RawFile) :
    (supportedFormats.contains f.format = false →
      extract f = .error .unsupportedFormat) ∧
    (supportedFormats.contains f.format = true → f.corrupt = true →
      extract f = .error .extractionFailed) ∧
    ExtractError.unsupportedFormat ≠ ExtractError.extractionFailed := by
  refine ⟨fun h => ?_, fun h hc => ?_, by decide⟩
  · have hm : f.format ∉ supportedFormats := by simpa using h
    simp [extract, hm]
  · have hm : f.format ∈ supportedFormats := by simpa using h
    simp [extract, hm, hc]

/-- Witness for C6_extract_errors: a concrete unsupported upload and a
concrete corrupt PDF. -/
theorem C6_extract_errors_witness :
    extract ⟨".xyz", false, "t"⟩ = .error .unsupportedFormat ∧
    extract ⟨".pdf", true, "t"⟩ = .error .extractionFailed :=
  ⟨(C6_extract_errors ⟨".xyz", false, "t"⟩).1 (by decide),
   (C6_extract_errors ⟨".pdf", true, "t"⟩).2.1 (by decide) (by decide)⟩

/-- Claim C7 (code evaluated at the failing input): uploading homily.txt with
declared sermon date 2024-03-01 through DocumentUpload.handleFile transmits
the date as the value of the use_textract form field (the AWS Textract
toggle of the upload API), and the transmitted form carries no sermon_date
and no metadata field at all: the declared date is sent as an unrelated
request parameter, not as the document's date metadata. -/
theorem C7_date_sent_as_use_textract :
    handleFile ⟨"text/plain", "homily.txt", 5⟩ "2024-03-01" (.ok ()) =
      .uploaded ⟨"POST", "/documents/upload",
        [("file", "homily.txt"), ("parish_id", "default"),
         ("document_type", "document"), ("use_textract", "2024-03-01")], []⟩ ∧
    ∀ p ∈ [("file", "homily.txt"), ("parish_id", "default"),
        ("document_type", "document"), ("use_textract", "2024-03-01")],
      Prod.fst p ≠ "sermon_date" ∧ Prod.fst p ≠ "metadata" := by
  decide

/-- A fetch response as api.js inspects it: HTTP ok flag, statusText, and
the parsed JSON body when the caller reads it. -/
structure HttpResponse (α : Type) where
  ok : Bool
  statusText : String
  body : α
deriving DecidableEq

/-- The result-handling half of api.js searchDocuments: the input is the
fetch result (a network failure rejects the promise and is the error case);
on a non-ok response the function throws "Failed to search documents: ..."
and only on an ok response does it return the parsed body. -/
def searchDocumentsResult (r : Except String (HttpResponse (List String))) :
    Except String (List String) :=
  match r with
  | .error e => .error e
  | .ok resp =>
    if resp.ok then .ok resp.body
    else .error ("Failed to search documents: " ++ resp.statusText)

/-- The result-handling half of api.js chatWithAgent: on a non-ok response it
throws "Chat request failed: ..."; a network failure propagates. -/
def chatWithAgentResult (r : Except String (HttpResponse String)) :
    Except String String :=
  match r with
  | .error e => .error e
  | .ok resp =>
    if resp.ok then .ok resp.body
    else .error ("Chat request failed: " ++ resp.statusText)

/-- Claim C8: when the underlying search or chat request fails (network
failure, or a non-2xx response), the caller receives an explicit error: the
operation never returns a result set (empty or otherwise), so a failure is
never indistinguishable from no matches. -/
theorem C8_failures_are_errors (resp : HttpResponse (List String))
    (cresp : HttpResponse String) (e : String)
    (hresp : resp.ok = false) (hcresp : cresp.ok = false) :
    searchDocumentsResult (.ok resp) =
      .error ("Failed to search documents: " ++ resp.statusText) ∧
    (∀ b, searchDocumentsResult (.ok resp) ≠ .ok b) ∧
    searchDocumentsResult (.error e) = .error e ∧
    chatWithAgentResult (.ok cresp) =
      .error ("Chat request failed: " ++ cresp.statusText) ∧
    (∀ b, chatWithAgentResult (.ok cresp) ≠ .ok b) ∧
    chatWithAgentResult (.error e) = .error e := by
  refine ⟨?_, ?_, rfl, ?_, ?_, rfl⟩ <;>
    simp [searchDocumentsResult, chatWithAgentResult, hresp, hcresp]

/-- Witness for C8_failures_are_errors at a concrete 502 response. -/
theorem C8_failures_are_errors_witness :
    searchDocumentsResult (.ok ⟨false, "Bad Gateway", []⟩) =
      .error ("Failed to search documents: " ++ "Bad Gateway") ∧
    (∀ b, searchDocumentsResult (.ok (⟨false, "Bad Gateway", []⟩ :
        HttpResponse (List String))) ≠ .ok b) ∧
    searchDocumentsResult (.error "fetch rejected") = .error "fetch rejected" ∧
    chatWithAgentResult (.ok ⟨false, "Bad Gateway", "ignored"⟩) =
      .error ("Chat request failed: " ++ "Bad Gateway") ∧
    (∀ b, chatWithAgentResult (.ok ⟨false, "Bad Gateway", "ignored"⟩) ≠ .ok b) ∧
    chatWithAgentResult (.error "fetch rejected") = .error "fetch rejected" :=
  C8_failures_are_errors ⟨false, "Bad Gateway", []⟩ ⟨false, "Bad Gateway", "ignored"⟩
    "fetch rejected" rfl rfl

/-- Modelled from the spec: the backend Chunker (spec section 4.2) is not
under src/ (only the tests README mentions text chunking with overlap).
Sliding-window worker: emits the whole remainder once it fits in one window,
otherwise a full window and then recurses past step = windowSize - overlap
units.  The fuel argument is structural; chunkText passes the text length,
which always suffices since every recursive call drops at least one unit. -/
def chunkGo (windowSize step : Nat) : Nat → List Char → List (List Char)
  | 0, _ => []
  | fuel + 1, l =>
    if l.length ≤ windowSize then [l]
    else l.take windowSize :: chunkGo windowSize step fuel (l.drop step)

/-- Modelled from the spec: chunk(text, windowSize, overlap) returns an
ordered sequence of windows, each at most windowSize units, consecutive
windows overlapping by overlap units; empty or whitespace-only input
produces zero chunks; degenerate parameters produce zero chunks. -/
def chunkText (text : List Char) (windowSize overlap : Nat) : List (List Char) :=
  if windowSize = 0 ∨ windowSize ≤ overlap then []
  else if text.all Char.isWhitespace then []
  else chunkGo windowSize (windowSize - overlap) text.length text

/-- The chunk records the pipeline stores: each window paired with its
zero-based sequence index, in order. -/
def chunkRecords (text : List Char) (windowSize overlap : Nat) :
    List (Nat × List Char) :=
  (chunkText text windowSize overlap).enum

theorem chunkGo_length_le (windowSize step fuel : Nat) (l : List Char) :
    ∀ c ∈ chunkGo windowSize step fuel l, c.length ≤ windowSize := by
  induction fuel generalizing l with
  | zero => intro c hc; simp [chunkGo] at hc
  | succ n ih =>
    intro c hc
    by_cases h : l.length ≤ windowSize
    · simp [chunkGo, h] at hc
      subst hc; exact h
    · simp [chunkGo, h] at hc
      rcases hc with hc | hc
      · subst hc
        simp [List.length_take]
      · exact ih _ c hc

theorem chunkGo_head_take (windowSize step fuel k : Nat) (hk : k ≤ windowSize)
    (l : List Char) :
    ∀ b ∈ (chunkGo windowSize step fuel l).head?, b.take k = l.take k := by
  cases fuel with
  | zero => intro b hb; simp [chunkGo] at hb
  | succ n =>
    intro b hb
    by_cases h : l.length ≤ windowSize
    · simp [chunkGo, h] at hb
      subst hb; rfl
    · simp [chunkGo, h] at hb
      subst hb
      rw [List.take_take, min_eq_left hk]

theorem chunkGo_chain (windowSize step o fuel : Nat) (ho : windowSize - step = o)
    (l : List Char) :
    List.Chain' (fun a b => a.drop step = b.take o ∧ (a.drop step).length = o)
      (chunkGo windowSize step fuel l) := by
  induction fuel generalizing l with
  | zero => simp [chunkGo]
  | succ n ih =>
    by_cases h : l.length ≤ windowSize
    · simp [chunkGo, h]
    · have hlt : windowSize < l.length := Nat.lt_of_not_le h
      simp only [chunkGo, if_neg h]
      refine List.chain'_cons'.mpr ⟨?_, ih _⟩
      intro b hb
      have hko : o ≤ windowSize := by omega
      have hbt := chunkGo_head_take windowSize step n o hko (l.drop step) b hb
      constructor
      · rw [List.drop_take, ho, hbt]
      · rw [List.drop_take, ho, List.length_take, List.length_drop]
        have : o ≤ l.length - step := by omega
        simpa using this

/-- Claim C3: for every input text and parameters, each window produced by
chunk has length at most windowSize; every pair of consecutive windows
shares exactly overlap units (the trailing overlap units of the earlier
window are the leading overlap units of the later one); and the chunk
sequence indices are contiguous starting from 0. -/
theorem C3_chunk_windows (text : List Char) (windowSize overlap : Nat) :
    (∀ c ∈ chunkText text windowSize overlap, c.length ≤ windowSize) ∧
    List.Chain' (fun a b => a.drop (windowSize - overlap) = b.take overlap ∧
        (a.drop (windowSize - overlap)).length = overlap)
      (chunkText text windowSize overlap) ∧
    (chunkRecords text windowSize overlap).map Prod.fst =
      List.range (chunkText text windowSize overlap).length := by
  refine ⟨?_, ?_, List.enum_map_fst _⟩
  · intro c hc
    unfold chunkText at hc
    split at hc
    · simp at hc
    · split at hc
      · simp at hc
      · exact chunkGo_length_le _ _ _ _ c hc
  · unfold chunkText
    split
    · simp
    · split
      · simp
      · rename_i hparams _
        have ho : windowSize - (windowSize - overlap) = overlap := by omega
        exact chunkGo_chain windowSize (windowSize - overlap) overlap text.length ho text

/-- Modelled from the spec: the MetadataStore "replace all chunks for
document X" write performed at the end of ingestion; chunking is the only
content-dependent part, so a store maps a document id to its chunk records
and ingestion replaces the record list of the one document. -/
def ingest (store : Nat → List (Nat × List Char)) (docId : Nat)
    (content : List Char) (windowSize overlap : Nat) : Nat → List (Nat × List Char) :=
  fun d => if d = docId then chunkRecords content windowSize overlap else store d

/-- Claim C4: chunking is deterministic and re-ingestion is idempotent: the
chunk set obtained for a document depends only on the content and the
parameters, not on any prior store state, and re-ingesting the same content
leaves the whole store unchanged. -/
theorem C4_reingest_idempotent (s1 s2 : Nat → List (Nat × List Char))
    (docId : Nat) (content : List Char) (windowSize overlap : Nat) :
    ingest s1 docId content windowSize overlap docId =
      ingest s2 docId content windowSize overlap docId ∧
    ingest (ingest s1 docId content windowSize overlap) docId content windowSize overlap =
      ingest s1 docId content windowSize overlap := by
  constructor
  · simp [ingest]
  · funext d
    by_cases h : d = docId <;> simp [ingest, h]

/-- The visible state of the search index: the chunk set each document
currently serves to retrieval. -/
def IndexState : Type := Nat → List String

/-- Modelled from the spec: the only write the IngestionPipeline performs on
the index at the indexing stage is the atomic swap of spec section 4.4 — one
indivisible operation replacing a document's whole chunk set. -/
inductive IndexOp where
  | swap (docId : Nat) (newChunks : List String)

/-- Applying one index operation: the swap installs the complete new chunk
set for its document in a single step and touches no other document. -/
def applyOp (s : IndexState) : IndexOp → IndexState
  | .swap d new => fun d2 => if d2 = d then new else s d2

/-- Retrieval of a document's chunk set reads the current index state. -/
def retrieveChunks (s : IndexState) (d : Nat) : List String := s d

/-- Claim C2: along any interleaving of index operations, a retrieval of a
document — including one that races the swap, i.e. one reading any
intermediate state of the trace — observes either the complete initial chunk
set of that document or the complete new chunk set installed by some swap of
that document, never a mixture of old and new chunks: the swap is a single
transition, so no state with a partial chunk set exists. -/
theorem C2_atomic_swap (s0 : IndexState) (ops : List IndexOp) (d : Nat)
    (t : IndexState) (ht : t ∈ List.scanl applyOp s0 ops) :
    retrieveChunks t d = retrieveChunks s0 d ∨
      ∃ new, IndexOp.swap d new ∈ ops ∧ retrieveChunks t d = new := by
  induction ops generalizing s0 with
  | nil =>
    rw [List.scanl_nil] at ht
    simp at ht
    subst ht
    exact Or.inl rfl
  | cons op ops ih =>
    rw [List.scanl_cons] at ht
    simp only [List.cons_append, List.nil_append, List.mem_cons] at ht
    rcases ht with ht | ht
    · subst ht; exact Or.inl rfl
    · rcases ih (applyOp s0 op) ht with h | ⟨new, hmem, hnew⟩
      · rcases op with ⟨d1, new1⟩
        by_cases hd : d = d1
        · subst hd
          refine Or.inr ⟨new1, List.mem_cons_self _ _, ?_⟩
          rw [h]; simp [retrieveChunks, applyOp]
        · left
          rw [h]; simp [retrieveChunks, applyOp, hd]
      · exact Or.inr ⟨new, List.mem_cons_of_mem _ hmem, hnew⟩

/-- A concrete pre-swap index state: document 0 serves two old chunks. -/
def swapDemoState : IndexState := fun _ => ["old chunk 0", "old chunk 1"]

/-- A concrete trace consisting of one atomic swap of document 0. -/
def swapDemoOps : List IndexOp := [.swap 0 ["new chunk 0"]]

/-- Witness for C2_atomic_swap: the state right after the concrete swap is in
the trace, and retrieval there observes a complete chunk set. -/
theorem C2_atomic_swap_witness :
    retrieveChunks (applyOp swapDemoState (.swap 0 ["new chunk 0"])) 0 =
        retrieveChunks swapDemoState 0 ∨
      ∃ new, IndexOp.swap 0 new ∈ swapDemoOps ∧
        retrieveChunks (applyOp swapDemoState (.swap 0 ["new chunk 0"])) 0 = new :=
  C2_atomic_swap swapDemoState swapDemoOps 0 _
    (by rw [swapDemoOps, List.scanl_cons, List.scanl_nil]; simp)

/-- A ranked retrieval hit as the ContextAssembler consumes it: chunk text,
relevance score (scores only order the hits, so any linearly ordered type
serves; Nat is used), and the citation data. -/
structure ScoredChunk where
  text : String
  score : Nat
  docId : Nat
  filename : String
  seqIdx : Nat
deriving DecidableEq

/-- Insert a hit into a list sorted by descending score. -/
def insertByScore (c : ScoredChunk) : List ScoredChunk → List ScoredChunk
  | [] => [c]
  | b :: rest => if b.score ≤ c.score then c :: b :: rest else b :: insertByScore c rest

/-- Sort retrieval hits by descending score. -/
def sortByScoreDesc (l : List ScoredChunk) : List ScoredChunk :=
  l.foldr insertByScore []

/-- Modelled from the spec: the greedy inclusion loop of assemble (spec
section 4.6): concatenate chunk texts in descending score order until the
next chunk would exceed maxContextSize; excluded chunks are dropped whole,
never truncated. -/
def takeWhileFits (maxContextSize used : Nat) : List ScoredChunk → List ScoredChunk
  | [] => []
  | c :: rest =>
    if used + c.text.length ≤ maxContextSize then
      c :: takeWhileFits maxContextSize (used + c.text.length) rest
    else []

/-- Concatenation of the included chunk texts, in order. -/
def joinTexts : List ScoredChunk → String
  | [] => ""
  | c :: rest => c.text ++ joinTexts rest

/-- Modelled from the spec: assemble(RetrievalResult, maxContextSize)
returns the bounded context block and one citation entry (document id,
filename, chunk sequence index) per included chunk. -/
def assemble (result : List ScoredChunk) (maxContextSize : Nat) :
    String × List (Nat × String × Nat) :=
  let included := takeWhileFits maxContextSize 0 (sortByScoreDesc result)
  (joinTexts included, included.map (fun c => (c.docId, c.filename, c.seqIdx)))

theorem joinTexts_length_le (maxContextSize : Nat) :
    ∀ (l : List ScoredChunk) (used : Nat),
      (joinTexts (takeWhileFits maxContextSize used l)).length ≤ maxContextSize - used := by
  intro l
  induction l with
  | nil => intro used; simp [takeWhileFits, joinTexts]
  | cons c rest ih =>
    intro used
    by_cases h : used + c.text.length ≤ maxContextSize
    · simp only [takeWhileFits, if_pos h, joinTexts, String.length_append]
      have := ih (used + c.text.length)
      omega
    · simp [takeWhileFits, if_neg h, joinTexts]

theorem takeWhileFits_sublist (maxContextSize : Nat) :
    ∀ (l : List ScoredChunk) (used : Nat),
      (takeWhileFits maxContextSize used l).Sublist l := by
  intro l
  induction l with
  | nil => intro used; simp [takeWhileFits]
  | cons c rest ih =>
    intro used
    by_cases h : used + c.text.length ≤ maxContextSize
    · simpa only [takeWhileFits, if_pos h] using (ih (used + c.text.length)).cons₂ c
    · simp [takeWhileFits, if_neg h]

theorem mem_insertByScore (a c : ScoredChunk) :
    ∀ l : List ScoredChunk, c ∈ insertByScore a l → c = a ∨ c ∈ l := by
  intro l
  induction l with
  | nil => intro h; simpa [insertByScore] using h
  | cons b rest ih =>
    intro h
    by_cases hb : b.score ≤ a.score
    · simp only [insertByScore, if_pos hb, List.mem_cons] at h
      rcases h with h | h | h
      · exact Or.inl h
      · exact Or.inr (by simp [h])
      · exact Or.inr (List.mem_cons_of_mem _ h)
    · simp only [insertByScore, if_neg hb, List.mem_cons] at h
      rcases h with h | h
      · exact Or.inr (by simp [h])
      · rcases ih h with h | h
        · exact Or.inl h
        · exact Or.inr (List.mem_cons_of_mem _ h)

theorem mem_sortByScoreDesc (c : ScoredChunk) :
    ∀ l : List ScoredChunk, c ∈ sortByScoreDesc l → c ∈ l := by
  intro l
  induction l with
  | nil => intro h; simp [sortByScoreDesc] at h
  | cons b rest ih =>
    intro h
    simp only [sortByScoreDesc, List.foldr_cons] at h
    rcases mem_insertByScore b c _ h with h | h
    · simp [h]
    · exact List.mem_cons_of_mem _ (ih h)

/-- Claim C9: for every retrieval result and bound, assemble produces a
context block whose total length is at most maxContextSize, and the block is
the concatenation of the whole texts of a subsequence of the score-sorted
hits, each a hit of the original result: a chunk is either included whole or
dropped entirely, never truncated mid-text. -/
theorem C9_assemble_bounded (result : List ScoredChunk) (maxContextSize : Nat) :
    (assemble result maxContextSize).1.length ≤ maxContextSize ∧
    ∃ included : List ScoredChunk,
      (assemble result maxContextSize).1 = joinTexts included ∧
      (assemble result maxContextSize).2 =
        included.map (fun c => (c.docId, c.filename, c.seqIdx)) ∧
      included.Sublist (sortByScoreDesc result) ∧
      ∀ c ∈ included, c ∈ result := by
  refine ⟨?_, takeWhileFits maxContextSize 0 (sortByScoreDesc result), rfl, rfl, ?_, ?_⟩
  · have := joinTexts_length_le maxContextSize (sortByScoreDesc result) 0
    simpa [assemble] using this
  · exact takeWhileFits_sublist maxContextSize _ 0
  · intro c hc
    exact mem_sortByScoreDesc c result
      ((takeWhileFits_sublist maxContextSize (sortByScoreDesc result) 0).mem hc)

/-- JavaScript String.prototype.trim on the character sequence of the input
box: strips whitespace from both ends. -/
def trimChars (l : List Char) : List Char :=
  ((l.dropWhile Char.isWhitespace).reverse.dropWhile Char.isWhitespace).reverse

/-- The state of the ChatInterface component (src/unnamed/part_001) that the
send path touches: the input box, the isLoading flag, the number of chat
requests currently in flight, and the messages sent so far. -/
structure ChatUiState where
  input : List Char
  isLoading : Bool
  inFlight : Nat
  sent : List (List Char)
deriving DecidableEq

/-- ChatInterface.handleSendMessage: returns unchanged state (a no-op) when
the trimmed input is empty or a request is loading; otherwise clears the
input, sets isLoading, and sends the trimmed message. -/
def handleSendMessage (st : ChatUiState) : ChatUiState :=
  if trimChars st.input = [] ∨ st.isLoading = true then st
  else ⟨[], true, st.inFlight + 1, st.sent ++ [trimChars st.input]⟩

/-- The events that touch this state: typing into the box (the textarea is
disabled while loading), clicking send (or pressing Enter, both call
handleSendMessage), and the pending request completing (the finally block
clears isLoading). -/
inductive ChatUiStep : ChatUiState → ChatUiState → Prop
  | typing (st : ChatUiState) (s : List Char) (h : st.isLoading = false) :
      ChatUiStep st ⟨s, st.isLoading, st.inFlight, st.sent⟩
  | send (st : ChatUiState) : ChatUiStep st (handleSendMessage st)
  | response (st : ChatUiState) (h : st.isLoading = true) :
      ChatUiStep st ⟨st.input, false, st.inFlight - 1, st.sent⟩

/-- The ChatInterface state on mount: empty input, not loading, nothing in
flight, nothing sent. -/
def initChatUiState : ChatUiState := ⟨[], false, 0, []⟩

/-- The state of the ChatPage component (src/unnamed/part_002) that onSend
touches; m.isPending is the react-query mutation pending flag. -/
structure ChatPageState where
  input : List Char
  isPending : Bool
  inFlight : Nat
  sent : List (List Char)
deriving DecidableEq

/-- ChatPage.onSend: returns unchanged state when the trimmed input is empty
or the mutation is pending; otherwise clears the input, starts the mutation,
and sends the trimmed message. -/
def onSend (st : ChatPageState) : ChatPageState :=
  if trimChars st.input = [] ∨ st.isPending = true then st
  else ⟨[], true, st.inFlight + 1, st.sent ++ [trimChars st.input]⟩

/-- The events on the ChatPage state: typing (the input is disabled while
pending), send (click or Enter both call onSend), and mutation settling. -/
inductive ChatPageStep : ChatPageState → ChatPageState → Prop
  | typing (st : ChatPageState) (s : List Char) (h : st.isPending = false) :
      ChatPageStep st ⟨s, st.isPending, st.inFlight, st.sent⟩
  | send (st : ChatPageState) : ChatPageStep st (onSend st)
  | settled (st : ChatPageState) (h : st.isPending = true) :
      ChatPageStep st ⟨st.input, false, st.inFlight - 1, st.sent⟩

/-- The ChatPage state on mount. -/
def initChatPageState : ChatPageState := ⟨[], false, 0, []⟩

/-- The coupled invariant: the loading flag counts the in-flight requests,
and every sent message is nonempty. -/
def ChatUiInv (st : ChatUiState) : Prop :=
  st.inFlight = (if st.isLoading then 1 else 0) ∧ ∀ m ∈ st.sent, m ≠ []

def ChatPageInv (st : ChatPageState) : Prop :=
  st.inFlight = (if st.isPending then 1 else 0) ∧ ∀ m ∈ st.sent, m ≠ []

theorem chatUiInv_step {st st2 : ChatUiState} (h : ChatUiStep st st2)
    (hinv : ChatUiInv st) : ChatUiInv st2 := by
  rcases hinv with ⟨hflight, hsent⟩
  cases h with
  | typing s hld => exact ⟨hflight, hsent⟩
  | send =>
    unfold handleSendMessage
    by_cases hguard : trimChars st.input = [] ∨ st.isLoading = true
    · rw [if_pos hguard]; exact ⟨hflight, hsent⟩
    · rw [if_neg hguard]
      push_neg at hguard
      rcases hguard with ⟨hne, hload⟩
      have hload2 : st.isLoading = false := by simpa using hload
      constructor
      · simp only [hflight, hload2]
        simp
      · intro m hm
        rcases List.mem_append.mp hm with hm | hm
        · exact hsent m hm
        · simp only [List.mem_singleton] at hm
          rw [hm]; exact hne
  | response hld =>
    refine ⟨?_, hsent⟩
    simp [hflight, hld]

theorem chatPageInv_step {st st2 : ChatPageState} (h : ChatPageStep st st2)
    (hinv : ChatPageInv st) : ChatPageInv st2 := by
  rcases hinv with ⟨hflight, hsent⟩
  cases h with
  | typing s hpd => exact ⟨hflight, hsent⟩
  | send =>
    unfold onSend
    by_cases hguard : trimChars st.input = [] ∨ st.isPending = true
    · rw [if_pos hguard]; exact ⟨hflight, hsent⟩
    · rw [if_neg hguard]
      push_neg at hguard
      rcases hguard with ⟨hne, hpend⟩
      have hpend2 : st.isPending = false := by simpa using hpend
      constructor
      · simp only [hflight, hpend2]
        simp
      · intro m hm
        rcases List.mem_append.mp hm with hm | hm
        · exact hsent m hm
        · simp only [List.mem_singleton] at hm
          rw [hm]; exact hne
  | settled hpd =>
    refine ⟨?_, hsent⟩
    simp [hflight, hpd]

theorem chatUiInv_reachable {st : ChatUiState}
    (h : Relation.ReflTransGen ChatUiStep initChatUiState st) : ChatUiInv st := by
  induction h with
  | refl => exact ⟨rfl, by simp [initChatUiState]⟩
  | tail _ hstep ih => exact chatUiInv_step hstep ih

theorem chatPageInv_reachable {st : ChatPageState}
    (h : Relation.ReflTransGen ChatPageStep initChatPageState st) : ChatPageInv st := by
  induction h with
  | refl => exact ⟨rfl, by simp [initChatPageState]⟩
  | tail _ hstep ih => exact chatPageInv_step hstep ih

/-- Claim C10: in both chat clients the send operation is a no-op whenever
the trimmed input is empty or a request is still pending; and in every state
reachable from mount, at most one chat request is in flight and every
message ever sent is nonempty after trimming. -/
theorem C10_send_guard (st : ChatUiState) (st2 : ChatPageState)
    (h : Relation.ReflTransGen ChatUiStep initChatUiState st)
    (h2 : Relation.ReflTransGen ChatPageStep initChatPageState st2) :
    (∀ s : ChatUiState, trimChars s.input = [] ∨ s.isLoading = true →
      handleSendMessage s = s) ∧
    (∀ s : ChatPageState, trimChars s.input = [] ∨ s.isPending = true →
      onSend s = s) ∧
    (st.inFlight ≤ 1 ∧ ∀ m ∈ st.sent, m ≠ []) ∧
    (st2.inFlight ≤ 1 ∧ ∀ m ∈ st2.sent, m ≠ []) := by
  refine ⟨fun s hs => by simp [handleSendMessage, hs],
    fun s hs => by simp [onSend, hs], ?_, ?_⟩
  · rcases chatUiInv_reachable h with ⟨hflight, hsent⟩
    refine ⟨?_, hsent⟩
    rw [hflight]
    split <;> omega
  · rcases chatPageInv_reachable h2 with ⟨hflight, hsent⟩
    refine ⟨?_, hsent⟩
    rw [hflight]
    split <;> omega

/-- Witness for C10_send_guard at the mount states of both clients. -/
theorem C10_send_guard_witness :
    (∀ s : ChatUiState, trimChars s.input = [] ∨ s.isLoading = true →
      handleSendMessage s = s) ∧
    (∀ s : ChatPageState, trimChars s.input = [] ∨ s.isPending = true →
      onSend s = s) ∧
    (initChatUiState.inFlight ≤ 1 ∧ ∀ m ∈ initChatUiState.sent, m ≠ []) ∧
    (initChatPageState.inFlight ≤ 1 ∧ ∀ m ∈ initChatPageState.sent, m ≠ []) :=
  C10_send_guard initChatUiState initChatPageState Relation.ReflTransGen.refl
    Relation.ReflTransGen.refl

end Homilia
